import Mathlib

/-!
Verification of the duplicate-removal utility.

The repository contains two TypeScript variants of `removeDuplicates` over
`number[]`:

* `src/src/problem-2.ts` — a `Set`-backed `Array.prototype.filter`: the
  callback keeps an element exactly when it is not yet in the mutable
  `uniqueNumber` set, adding it when kept.
* `src/unnamed/part_000` — a linear scan: a `for`-loop pushing each element
  onto `resultArray` when `resultArray.includes(num)` is false.

JavaScript numbers in all the repository's examples are integers, so list
elements are modelled as `Int`.  The JS `Set<number>` is only ever queried
for membership, so it is modelled as a `List Int` used through `∈` (adding
an element is `cons`).
-/

namespace Problem2

/-- The stateful `numbers.filter(n => ...)` of `problem-2.ts`, with the
mutable `uniqueNumber` set threaded explicitly: elements are visited in
order; an element absent from `uniqueNumber` is kept and added to the set,
an element present is dropped. -/
def filterLoop (uniqueNumber : List Int) : List Int → List Int
  | [] => []
  | n :: rest =>
    if n ∉ uniqueNumber then n :: filterLoop (n :: uniqueNumber) rest
    else filterLoop uniqueNumber rest

/-- Function `removeDuplicates` of `src/src/problem-2.ts`: start from an
empty `uniqueNumber` set and run the filter. -/
def removeDuplicates (numbers : List Int) : List Int :=
  filterLoop [] numbers

end Problem2

namespace Part000

/-- Function `removeDuplicates` of `src/unnamed/part_000`: a `for`-loop
over `numbers` accumulating `resultArray`, pushing each element not
already included. -/
def removeDuplicates (numbers : List Int) : List Int :=
  numbers.foldl
    (fun resultArray num =>
      if num ∉ resultArray then resultArray ++ [num] else resultArray)
    []

end Part000

/-- The spec's description of the output, in its own words: scanning from
the start, keep each value at its first appearance and drop every later
occurrence of it ("output is a subsequence of input consisting of first
occurrences only").  Used solely to compare the implementations against
the spec's wording. -/
def specFirstOccurrences : List Int → List Int
  | [] => []
  | x :: xs => x :: specFirstOccurrences (xs.filter (fun y => y != x))
termination_by l => l.length
decreasing_by
  simp only [List.length_cons]
  exact Nat.lt_succ_of_le (List.length_filter_le _ _)

namespace Problem2

theorem mem_filterLoop {a : Int} :
    ∀ (xs seen : List Int), a ∈ filterLoop seen xs ↔ a ∈ xs ∧ a ∉ seen := by
  intro xs
  induction xs with
  | nil => intro seen; simp [filterLoop]
  | cons n rest ih =>
    intro seen
    by_cases hn : n ∈ seen
    · simp only [filterLoop, if_neg (not_not.mpr hn)]
      rw [ih]
      constructor
      · rintro ⟨h1, h2⟩; exact ⟨List.mem_cons_of_mem _ h1, h2⟩
      · rintro ⟨h1, h2⟩
        rcases List.mem_cons.mp h1 with h | h
        · exact absurd (h ▸ hn) h2
        · exact ⟨h, h2⟩
    · simp only [filterLoop, if_pos hn]
      rw [List.mem_cons, ih]
      constructor
      · rintro (rfl | ⟨h1, h2⟩)
        · exact ⟨List.mem_cons_self _ _, hn⟩
        · exact ⟨List.mem_cons_of_mem _ h1, fun hs => h2 (List.mem_cons_of_mem _ hs)⟩
      · rintro ⟨h1, h2⟩
        rcases List.mem_cons.mp h1 with rfl | h
        · exact Or.inl rfl
        · by_cases han : a = n
          · exact Or.inl han
          · exact Or.inr ⟨h, fun hs => by
              rcases List.mem_cons.mp hs with h' | h'
              · exact han h'
              · exact h2 h'⟩

theorem nodup_filterLoop : ∀ (xs seen : List Int), (filterLoop seen xs).Nodup := by
  intro xs
  induction xs with
  | nil => intro seen; simp [filterLoop]
  | cons n rest ih =>
    intro seen
    by_cases hn : n ∈ seen
    · simpa only [filterLoop, if_neg (not_not.mpr hn)] using ih seen
    · simp only [filterLoop, if_pos hn, List.nodup_cons]
      refine ⟨fun hmem => ?_, ih (n :: seen)⟩
      exact ((mem_filterLoop rest (n :: seen)).mp hmem).2 (List.mem_cons_self _ _)

theorem filterLoop_sublist : ∀ (xs seen : List Int), List.Sublist (filterLoop seen xs) xs := by
  intro xs
  induction xs with
  | nil => intro seen; simp [filterLoop]
  | cons n rest ih =>
    intro seen
    by_cases hn : n ∈ seen
    · simp only [filterLoop, if_neg (not_not.mpr hn)]
      exact (ih seen).cons n
    · simp only [filterLoop, if_pos hn]
      exact (ih (n :: seen)).cons₂ n

theorem filterLoop_eq_of_nodup :
    ∀ (xs seen : List Int), xs.Nodup → (∀ a ∈ xs, a ∉ seen) →
      filterLoop seen xs = xs := by
  intro xs
  induction xs with
  | nil => intro seen _ _; simp [filterLoop]
  | cons n rest ih =>
    intro seen hnd hdisj
    have hn : n ∉ seen := hdisj n (List.mem_cons_self _ _)
    simp only [filterLoop, if_pos hn]
    congr 1
    refine ih (n :: seen) (List.Nodup.of_cons hnd) ?_
    intro a ha hs
    rcases List.mem_cons.mp hs with rfl | h
    · exact (List.nodup_cons.mp hnd).1 ha
    · exact hdisj a (List.mem_cons_of_mem _ ha) h

theorem filterLoop_congr :
    ∀ (xs s1 s2 : List Int), (∀ a, a ∈ s1 ↔ a ∈ s2) →
      filterLoop s1 xs = filterLoop s2 xs := by
  intro xs
  induction xs with
  | nil => intro s1 s2 _; rfl
  | cons n rest ih =>
    intro s1 s2 hiff
    by_cases hn : n ∈ s1
    · rw [filterLoop, filterLoop, if_neg (not_not.mpr hn),
        if_neg (not_not.mpr ((hiff n).mp hn))]
      exact ih s1 s2 hiff
    · rw [filterLoop, filterLoop, if_pos hn, if_pos (fun h => hn ((hiff n).mpr h))]
      congr 1
      refine ih (n :: s1) (n :: s2) fun a => ?_
      simp only [List.mem_cons]
      exact or_congr Iff.rfl (hiff a)

theorem indexOf_filterLoop :
    ∀ (xs seen : List Int) (a b : Int),
      a ∈ filterLoop seen xs → b ∈ filterLoop seen xs →
      ((filterLoop seen xs).indexOf a < (filterLoop seen xs).indexOf b ↔
        xs.indexOf a < xs.indexOf b) := by
  intro xs
  induction xs with
  | nil => intro seen a b ha _; simp [filterLoop] at ha
  | cons n rest ih =>
    intro seen a b ha hb
    by_cases hn : n ∈ seen
    · simp only [filterLoop, if_neg (not_not.mpr hn)] at ha hb ⊢
      have hane : n ≠ a := fun h => ((mem_filterLoop rest seen).mp ha).2 (h ▸ hn)
      have hbne : n ≠ b := fun h => ((mem_filterLoop rest seen).mp hb).2 (h ▸ hn)
      rw [List.indexOf_cons_ne _ hane, List.indexOf_cons_ne _ hbne,
        Nat.succ_lt_succ_iff]
      exact ih seen a b ha hb
    · simp only [filterLoop, if_pos hn] at ha hb ⊢
      by_cases han : a = n
      · subst han
        by_cases hbn : b = a
        · subst hbn
          exact iff_of_false (lt_irrefl _) (lt_irrefl _)
        · have hab : a ≠ b := fun h => hbn h.symm
          refine iff_of_true ?_ ?_
          · rw [List.indexOf_cons_self, List.indexOf_cons_ne _ hab]
            exact Nat.succ_pos _
          · rw [List.indexOf_cons_self, List.indexOf_cons_ne _ hab]
            exact Nat.succ_pos _
      · by_cases hbn : b = n
        · subst hbn
          have hba : b ≠ a := fun h => han h.symm
          refine iff_of_false ?_ ?_
          · rw [List.indexOf_cons_self, List.indexOf_cons_ne _ hba]
            exact Nat.not_lt_zero _
          · rw [List.indexOf_cons_self, List.indexOf_cons_ne _ hba]
            exact Nat.not_lt_zero _
        · have hna : n ≠ a := fun h => han h.symm
          have hnb : n ≠ b := fun h => hbn h.symm
          have ha' : a ∈ filterLoop (n :: seen) rest := by
            rcases List.mem_cons.mp ha with h | h
            · exact absurd h han
            · exact h
          have hb' : b ∈ filterLoop (n :: seen) rest := by
            rcases List.mem_cons.mp hb with h | h
            · exact absurd h hbn
            · exact h
          rw [List.indexOf_cons_ne _ hna, List.indexOf_cons_ne _ hnb,
            List.indexOf_cons_ne _ hna, List.indexOf_cons_ne _ hnb,
            Nat.succ_lt_succ_iff, Nat.succ_lt_succ_iff]
          exact ih (n :: seen) a b ha' hb'

end Problem2

theorem part000_foldl_eq :
    ∀ (xs acc seen : List Int), (∀ a, a ∈ acc ↔ a ∈ seen) →
      xs.foldl
        (fun resultArray num =>
          if num ∉ resultArray then resultArray ++ [num] else resultArray)
        acc
        = acc ++ Problem2.filterLoop seen xs := by
  intro xs
  induction xs with
  | nil => intro acc seen _; simp [Problem2.filterLoop]
  | cons n rest ih =>
    intro acc seen hiff
    simp only [List.foldl_cons]
    by_cases hn : n ∈ acc
    · rw [if_neg (not_not.mpr hn), Problem2.filterLoop,
        if_neg (not_not.mpr ((hiff n).mp hn))]
      exact ih acc seen hiff
    · rw [if_pos hn, Problem2.filterLoop, if_pos (fun h => hn ((hiff n).mpr h))]
      rw [ih (acc ++ [n]) (n :: seen) ?_]
      · rw [List.append_assoc, List.singleton_append]
      · intro a
        constructor
        · intro h
          rcases List.mem_append.mp h with h | h
          · exact List.mem_cons_of_mem _ ((hiff a).mp h)
          · exact List.mem_cons.mpr (Or.inl (List.mem_singleton.mp h))
        · intro h
          rcases List.mem_cons.mp h with rfl | h
          · exact List.mem_append.mpr (Or.inr (List.mem_singleton.mpr rfl))
          · exact List.mem_append.mpr (Or.inl ((hiff a).mpr h))

theorem variants_eq (xs : List Int) :
    Part000.removeDuplicates xs = Problem2.removeDuplicates xs := by
  unfold Part000.removeDuplicates Problem2.removeDuplicates
  rw [part000_foldl_eq xs [] [] (fun a => Iff.rfl), List.nil_append]

theorem filterLoop_eq_spec :
    ∀ (xs seen : List Int),
      Problem2.filterLoop seen xs
        = specFirstOccurrences (xs.filter (fun y => decide (y ∉ seen))) := by
  intro xs
  induction xs with
  | nil => intro seen; simp [Problem2.filterLoop, specFirstOccurrences]
  | cons n rest ih =>
    intro seen
    by_cases hn : n ∈ seen
    · have hpn : (decide (n ∉ seen)) = false := by simp [hn]
      rw [Problem2.filterLoop, if_neg (not_not.mpr hn), List.filter_cons, hpn]
      simp only [Bool.false_eq_true, if_false]
      exact ih seen
    · have hpn : (decide (n ∉ seen)) = true := by simp [hn]
      rw [Problem2.filterLoop, if_pos hn, List.filter_cons, hpn]
      simp only [if_true]
      rw [specFirstOccurrences]
      congr 1
      rw [List.filter_filter, ih (n :: seen)]
      congr 1
      apply List.filter_congr
      intro a _
      by_cases h1 : a = n <;> by_cases h2 : a ∈ seen <;> simp [h1, h2]

/-- C1: for every input list `xs`, membership in the output of each variant
of `removeDuplicates` coincides with membership in `xs` (set equality of
input and output), and the output of each variant is duplicate-free. -/
theorem dedup_set_equality_nodup (xs : List Int) :
    (∀ a, a ∈ Problem2.removeDuplicates xs ↔ a ∈ xs) ∧
    (Problem2.removeDuplicates xs).Nodup ∧
    (∀ a, a ∈ Part000.removeDuplicates xs ↔ a ∈ xs) ∧
    (Part000.removeDuplicates xs).Nodup := by
  have hmem : ∀ a, a ∈ Problem2.removeDuplicates xs ↔ a ∈ xs := by
    intro a
    rw [Problem2.removeDuplicates, Problem2.mem_filterLoop]
    simp
  have hnd : (Problem2.removeDuplicates xs).Nodup := Problem2.nodup_filterLoop xs []
  exact ⟨hmem, hnd, by rw [variants_eq]; exact hmem, by rw [variants_eq]; exact hnd⟩

/-- C2: for any two elements `a`, `b` of the output of `removeDuplicates`,
`a` precedes `b` in the output (its index is smaller) exactly when the
first occurrence of `a` precedes the first occurrence of `b` in the input,
for both variants. -/
theorem dedup_first_occurrence_order (xs : List Int) (a b : Int)
    (ha : a ∈ Problem2.removeDuplicates xs)
    (hb : b ∈ Problem2.removeDuplicates xs) :
    ((Problem2.removeDuplicates xs).indexOf a <
        (Problem2.removeDuplicates xs).indexOf b ↔
      xs.indexOf a < xs.indexOf b) ∧
    ((Part000.removeDuplicates xs).indexOf a <
        (Part000.removeDuplicates xs).indexOf b ↔
      xs.indexOf a < xs.indexOf b) := by
  have h := Problem2.indexOf_filterLoop xs [] a b ha hb
  exact ⟨h, by rw [variants_eq]; exact h⟩

theorem dedup_first_occurrence_order_witness :
    ((1 : Int) ∈ Problem2.removeDuplicates [1, 2, 1]) ∧
    ((2 : Int) ∈ Problem2.removeDuplicates [1, 2, 1]) ∧
    ((((Problem2.removeDuplicates [1, 2, 1]).indexOf 1 <
          (Problem2.removeDuplicates [1, 2, 1]).indexOf 2 ↔
        ([1, 2, 1] : List Int).indexOf 1 < ([1, 2, 1] : List Int).indexOf 2) ∧
      ((Part000.removeDuplicates [1, 2, 1]).indexOf 1 <
          (Part000.removeDuplicates [1, 2, 1]).indexOf 2 ↔
        ([1, 2, 1] : List Int).indexOf 1 < ([1, 2, 1] : List Int).indexOf 2))) :=
  ⟨by decide, by decide,
    dedup_first_occurrence_order [1, 2, 1] 1 2 (by decide) (by decide)⟩

/-- C3: the two source variants of `removeDuplicates` are extensionally
equal: on every input list of numbers they return the same output list. -/
theorem dedup_variants_agree (xs : List Int) :
    Part000.removeDuplicates xs = Problem2.removeDuplicates xs :=
  variants_eq xs

/-- C4: on the concrete inputs of the spec's scenarios (the first being the
list printed by `part_000`'s `console.log` call), both variants return the
expected deduplicated lists. -/
theorem dedup_concrete_scenarios :
    Problem2.removeDuplicates [1, 1, 2, 2, 3, 3, 4, 4, 4, 4, 5, 5, 8, 8, 6, 6, 7, 7]
        = [1, 2, 3, 4, 5, 8, 6, 7] ∧
    Part000.removeDuplicates [1, 1, 2, 2, 3, 3, 4, 4, 4, 4, 5, 5, 8, 8, 6, 6, 7, 7]
        = [1, 2, 3, 4, 5, 8, 6, 7] ∧
    Problem2.removeDuplicates [5, 5, 5, 5] = [5] ∧
    Part000.removeDuplicates [5, 5, 5, 5] = [5] := by
  refine ⟨?_, ?_, ?_, ?_⟩ <;> decide

/-- C5: for every input list `xs`, the output of each variant is a
subsequence of `xs`, equals the spec's "first occurrences only" list, and
its length is at most the length of `xs`. -/
theorem dedup_sublist_first_occurrences (xs : List Int) :
    List.Sublist (Problem2.removeDuplicates xs) xs ∧
    (Problem2.removeDuplicates xs).length ≤ xs.length ∧
    Problem2.removeDuplicates xs = specFirstOccurrences xs ∧
    List.Sublist (Part000.removeDuplicates xs) xs ∧
    (Part000.removeDuplicates xs).length ≤ xs.length ∧
    Part000.removeDuplicates xs = specFirstOccurrences xs := by
  have hsub := Problem2.filterLoop_sublist xs []
  have hspec : Problem2.removeDuplicates xs = specFirstOccurrences xs := by
    rw [Problem2.removeDuplicates, filterLoop_eq_spec]
    congr 1
    simp
  exact ⟨hsub, hsub.length_le, hspec,
    by rw [variants_eq]; exact hsub,
    by rw [variants_eq]; exact hsub.length_le,
    by rw [variants_eq]; exact hspec⟩

/-- C6: each variant of `removeDuplicates` is the identity on lists that
already contain no duplicates. -/
theorem dedup_identity_on_nodup (xs : List Int) (h : xs.Nodup) :
    Problem2.removeDuplicates xs = xs ∧ Part000.removeDuplicates xs = xs := by
  have h2 : Problem2.removeDuplicates xs = xs :=
    Problem2.filterLoop_eq_of_nodup xs [] h (fun a _ => List.not_mem_nil a)
  exact ⟨h2, by rw [variants_eq]; exact h2⟩

theorem dedup_identity_on_nodup_witness :
    ([1, 2, 3] : List Int).Nodup ∧
    (Problem2.removeDuplicates [1, 2, 3] = [1, 2, 3] ∧
      Part000.removeDuplicates [1, 2, 3] = [1, 2, 3]) :=
  ⟨by decide, dedup_identity_on_nodup [1, 2, 3] (by decide)⟩

/-- C7: each variant of `removeDuplicates` is idempotent. -/
theorem dedup_idempotent (xs : List Int) :
    Problem2.removeDuplicates (Problem2.removeDuplicates xs)
        = Problem2.removeDuplicates xs ∧
    Part000.removeDuplicates (Part000.removeDuplicates xs)
        = Part000.removeDuplicates xs := by
  have hnd := Problem2.nodup_filterLoop xs []
  have h2 : Problem2.removeDuplicates (Problem2.removeDuplicates xs)
      = Problem2.removeDuplicates xs :=
    Problem2.filterLoop_eq_of_nodup _ [] hnd (fun a _ => List.not_mem_nil a)
  refine ⟨h2, ?_⟩
  simp only [variants_eq]
  exact h2

/-- C8: each variant of `removeDuplicates` maps the empty list to the
empty list. -/
theorem dedup_empty :
    Problem2.removeDuplicates [] = [] ∧ Part000.removeDuplicates [] = [] :=
  ⟨rfl, rfl⟩

/-- C10: on a non-empty input, the output of each variant is non-empty and
its first element is the first element of the input. -/
theorem dedup_head (xs : List Int) (h : xs ≠ []) :
    (Problem2.removeDuplicates xs).head? = xs.head? ∧
    Problem2.removeDuplicates xs ≠ [] ∧
    (Part000.removeDuplicates xs).head? = xs.head? ∧
    Part000.removeDuplicates xs ≠ [] := by
  match xs, h with
  | n :: rest, _ =>
    have hcons : Problem2.removeDuplicates (n :: rest)
        = n :: Problem2.filterLoop [n] rest := by
      rw [Problem2.removeDuplicates, Problem2.filterLoop,
        if_pos (List.not_mem_nil n)]
    refine ⟨by rw [hcons]; rfl, by rw [hcons]; exact List.cons_ne_nil _ _,
      by rw [variants_eq, hcons]; rfl,
      by rw [variants_eq, hcons]; exact List.cons_ne_nil _ _⟩

theorem dedup_head_witness :
    ([7, 7, 9] : List Int) ≠ [] ∧
    ((Problem2.removeDuplicates [7, 7, 9]).head? = ([7, 7, 9] : List Int).head? ∧
      Problem2.removeDuplicates [7, 7, 9] ≠ [] ∧
      (Part000.removeDuplicates [7, 7, 9]).head? = ([7, 7, 9] : List Int).head? ∧
      Part000.removeDuplicates [7, 7, 9] ≠ []) :=
  ⟨by decide, dedup_head [7, 7, 9] (by decide)⟩
